import Mathlib

/-!
Shallow embedding of the MIPS peephole-optimizer repository
(`src/parser/mips_parser.py` and `src/optimizer/peephole.py`).

Python exceptions (IndexError on list indexing, attribute errors) are
modelled by `Option`: a function returns `none` exactly when the Python
code would raise.  The while loop of the optimizer is modelled with a fuel
parameter equal to the input length; since every loop iteration advances
the cursor by at least one element, this fuel is always sufficient.
-/

namespace MIPSOpt

/-- The `Instruction` dataclass of `mips_parser.py`. -/
structure Instruction where
  opcode : String
  args : List String
  comment : Option String := none
  originalText : Option String := none
  deriving Repr, DecidableEq

/-- The `Label` dataclass of `mips_parser.py`. -/
structure Label where
  name : String
  instruction : Option Instruction := none
  deriving Repr, DecidableEq

/-- One element of the IR sequence: `Instruction | Label`. -/
inductive El where
  | instr (i : Instruction)
  | label (l : Label)
  deriving Repr, DecidableEq

/-- Python string interpolation of an optional string: a missing value
renders as the four letters None. -/
def pyStr : Option String → String
  | none => "None"
  | some s => s

/-- Is the IR element a `Label`?  (`isinstance(x, Label)`.) -/
def elIsLabel : El → Bool
  | El.instr _ => false
  | El.label _ => true

/-- Embeds `PeepholeOptimizer._match_add_zero`: match `add rd, rs, $zero`. -/
def matchAddZero : List El → Option Nat
  | El.instr i :: _ =>
    if i.opcode = "add" ∧ i.args.length = 3 ∧ i.args[2]? = some "$zero"
    then some 1 else some 0
  | _ => some 0

/-- Embeds `PeepholeOptimizer._transform_add_zero`. -/
def transformAddZero : List El → Option (List El)
  | El.instr i :: _ =>
    match i.args[0]?, i.args[1]? with
    | some a0, some a1 =>
      some [El.instr { opcode := "move", args := [a0, a1],
                       comment := some ("Optimized from: " ++ pyStr i.originalText),
                       originalText := none }]
    | _, _ => none
  | _ => none

/-- Embeds `PeepholeOptimizer._match_redundant_move`: match `move rd, rs` followed by
`add rd2, rd, $zero`.  Note: `first.args[0]` is read with no length guard, so an
operand-less `move` makes the Python code raise (`none` here). -/
def matchRedundantMove : List El → Option Nat
  | El.instr first :: El.instr second :: _ =>
    if first.opcode = "move" ∧ second.opcode = "add" ∧
       second.args.length = 3 ∧ second.args[2]? = some "$zero" then
      match first.args[0]? with
      | none => none
      | some a0 => if second.args[1]? = some a0 then some 2 else some 0
    else some 0
  | _ => some 0

/-- Embeds `PeepholeOptimizer._transform_redundant_move`. -/
def transformRedundantMove : List El → Option (List El)
  | El.instr first :: El.instr second :: _ =>
    match second.args[0]?, first.args[1]? with
    | some d, some s =>
      some [El.instr { opcode := "move", args := [d, s],
                       comment := some ("Optimized from: " ++ pyStr first.originalText
                                         ++ " and " ++ pyStr second.originalText),
                       originalText := none }]
    | _, _ => none
  | _ => none

/-- Embeds `PeepholeOptimizer._match_redundant_load_store`: match `sw r, loc` followed
by `lw r2, loc`.  `store.args[1]` and `load.args[1]` are read with no length
guard, so short operand lists make the Python code raise (`none` here). -/
def matchRedundantLoadStore : List El → Option Nat
  | El.instr store :: El.instr load :: _ =>
    if store.opcode = "sw" ∧ load.opcode = "lw" then
      match store.args[1]? with
      | none => none
      | some s1 =>
        match load.args[1]? with
        | none => none
        | some l1 => if s1 = l1 then some 2 else some 0
    else some 0
  | _ => some 0

/-- Embeds `PeepholeOptimizer._transform_redundant_load_store`. -/
def transformRedundantLoadStore : List El → Option (List El)
  | El.instr store :: El.instr load :: _ =>
    match load.args[0]?, store.args[0]? with
    | some d, some s =>
      some [El.instr store,
            El.instr { opcode := "move", args := [d, s],
                       comment := some ("Optimized from: " ++ pyStr load.originalText),
                       originalText := none }]
    | _, _ => none
  | _ => none

/-- A registered pattern: `(match_function, transform_function)`. -/
def PatternT := (List El → Option Nat) × (List El → Option (List El))

/-- Embeds `PeepholeOptimizer._initialize_patterns`: the fixed ordered pattern list. -/
def patterns : List PatternT :=
  [(matchAddZero, transformAddZero),
   (matchRedundantMove, transformRedundantMove),
   (matchRedundantLoadStore, transformRedundantLoadStore)]

/-- The inner `for match_fn, transform_fn in self.patterns` loop of
`PeepholeOptimizer.optimize`: try each pattern in order at the current cursor;
`some none` = no pattern matched, `some (some (n, out))` = a pattern matched the
first `n` elements and its transformer produced `out`, `none` = a raise. -/
def tryPatterns : List PatternT → List El → Option (Option (Nat × List El))
  | [], _ => some none
  | (m, t) :: ps, s =>
    match m s with
    | none => none
    | some 0 => tryPatterns ps s
    | some (n + 1) =>
      match t (s.take (n + 1)) with
      | none => none
      | some out => some (some (n + 1, out))

/-- The `while i < len(instructions)` loop of `PeepholeOptimizer.optimize`,
with fuel (each iteration advances the cursor by at least one element, so fuel
equal to the remaining length always suffices). -/
def optimizeLoop : Nat → List El → Option (List El)
  | _, [] => some []
  | 0, _ :: _ => none
  | fuel + 1, x :: rest =>
    match tryPatterns patterns (x :: rest) with
    | none => none
    | some none => (optimizeLoop fuel rest).map (x :: ·)
    | some (some (n, out)) => (optimizeLoop fuel ((x :: rest).drop n)).map (out ++ ·)

/-- Embeds `PeepholeOptimizer.optimize`. -/
def optimize (instructions : List El) : Option (List El) :=
  optimizeLoop instructions.length instructions


/-! ### Parser (`mips_parser.py`), modelled at the character-list level -/

/-- The whitespace class of Python `str.strip` / regex whitespace class (ASCII part). -/
def isSpaceChar (c : Char) : Bool :=
  c = ' ' || c = '\t' || c = '\n' || c = '\r' || c = '\x0b' || c = '\x0c'

/-- Left strip. -/
def ltrim (l : List Char) : List Char := l.dropWhile isSpaceChar

/-- Right strip. -/
def rtrim (l : List Char) : List Char := (l.reverse.dropWhile isSpaceChar).reverse

/-- Python `str.strip()`. -/
def trimC (l : List Char) : List Char := rtrim (ltrim l)

/-- The letter class of the instruction regex. -/
def isAsciiLetter (c : Char) : Bool := ('a' ≤ c && c ≤ 'z') || ('A' ≤ c && c ≤ 'Z')

/-- The first character of a label identifier (a letter or underscore). -/
def isIdentStart (c : Char) : Bool := isAsciiLetter c || c = '_'

/-- The later characters of a label identifier (letters, digits, underscore). -/
def isIdentChar (c : Char) : Bool := isAsciiLetter c || ('0' ≤ c && c ≤ '9') || c = '_'

/-- Python `str.lower` on the ASCII letters the opcode regex admits. -/
def toLowerChar (c : Char) : Char :=
  if 'A' ≤ c ∧ c ≤ 'Z' then Char.ofNat (c.toNat + 32) else c

/-- The label regex (identifier, then a colon, then the rest) of
`MIPSParser._initialize_patterns`: on success returns the label name and the
text after the colon (with the whitespace right after the colon consumed by
the regex). -/
def labelSplit (line : List Char) : Option (List Char × List Char) :=
  let t := line.dropWhile isSpaceChar
  match t with
  | [] => none
  | c :: _ =>
    if isIdentStart c then
      match t.dropWhile isIdentChar with
      | ':' :: r => some (t.takeWhile isIdentChar, r.dropWhile isSpaceChar)
      | _ => none
    else none

/-- Operand splitting of `MIPSParser._parse_instruction`: split strictly on
`,`, strip each piece, drop the pieces that are empty after stripping. -/
def splitArgsC (cs : List Char) : List String :=
  (((cs.splitOn ',').map trimC).filter (· ≠ [])).map (fun l => String.mk l)

/-- Embeds `MIPSParser._parse_instruction` with the instruction regex
(letters, then operand text, then an optional trailing comment): the opcode is the maximal
letter prefix (stored lower-cased), the operand text is everything before the
first `#`, and the comment is the stripped text after the first `#` (Python
turns an empty comment group into `None`).  Lines not starting (after
whitespace) with a letter do not match, and `None` is returned. -/
def parseInstructionC (line : List Char) : Option Instruction :=
  let t := line.dropWhile isSpaceChar
  match t.takeWhile isAsciiLetter with
  | [] => none
  | op =>
    let r := t.dropWhile isAsciiLetter
    let argsStr := r.takeWhile (· ≠ '#')
    let comment :=
      match r.dropWhile (· ≠ '#') with
      | [] => none
      | _ :: c => if trimC c = [] then none else some (String.mk (trimC c))
    some { opcode := String.mk (op.map toLowerChar),
           args := splitArgsC argsStr,
           comment := comment,
           originalText := some (String.mk line) }

/-- One iteration of the `for line in text.splitlines()` loop of
`MIPSParser.parse_text`: the IR elements this source line contributes. -/
def parseLineC (l : List Char) : List El :=
  let line := trimC l
  if line = [] then []
  else if (line.dropWhile isSpaceChar).head? = some '#' then []
  else
    match labelSplit line with
    | some (name, rest) =>
      if trimC rest ≠ [] then
        match parseInstructionC rest with
        | some i => [El.label { name := String.mk name, instruction := some i }, El.instr i]
        | none => [El.label { name := String.mk name, instruction := none }]
      else [El.label { name := String.mk name, instruction := none }]
    | none =>
      match parseInstructionC line with
      | some i => [El.instr i]
      | none => []

/-- Embeds `MIPSParser.parse_text` over an already-split list of source lines. -/
def parseLinesC (lines : List (List Char)) : List El :=
  (lines.map parseLineC).flatten

/-- Python `str.splitlines`, modelled as splitting on the newline character. -/
def splitLinesC (text : List Char) : List (List Char) := text.splitOn '\n'

/-- Embeds `MIPSParser.parse_text`. -/
def parseTextC (text : List Char) : List El := parseLinesC (splitLinesC text)

/-! ### Basic plumbing: the fuel is irrelevant as soon as it is sufficient -/

theorem tryPatterns_pos_ge_one : ∀ (ps : List PatternT) (s : List El) (n : Nat)
    (out : List El), tryPatterns ps s = some (some (n, out)) → 1 ≤ n := by
  intro ps
  induction ps with
  | nil => intro s n out h; simp [tryPatterns] at h
  | cons p ps ih =>
    intro s n out h
    obtain ⟨m, t⟩ := p
    simp only [tryPatterns] at h
    split at h
    · simp at h
    · exact ih s n out h
    · split at h
      · simp at h
      · simp at h
        omega

theorem optimizeLoop_eq (fuel : Nat) : ∀ s : List El, s.length ≤ fuel →
    optimizeLoop fuel s = optimize s := by
  induction fuel using Nat.strong_induction_on with
  | _ fuel ih =>
    intro s hs
    match fuel, s with
    | f, [] => cases f <;> rfl
    | 0, x :: rest => simp at hs
    | f + 1, x :: rest =>
      have hrest : rest.length ≤ f := by simpa using hs
      show optimizeLoop (f + 1) (x :: rest) = optimizeLoop (rest.length + 1) (x :: rest)
      simp only [optimizeLoop]
      cases htp : tryPatterns patterns (x :: rest) with
      | none => rfl
      | some o =>
        cases o with
        | none =>
          show (optimizeLoop f rest).map (x :: ·) = (optimizeLoop rest.length rest).map (x :: ·)
          rw [ih f (Nat.lt_succ_self _) rest hrest]
          rfl
        | some p =>
          obtain ⟨n, out⟩ := p
          have hn : 1 ≤ n := tryPatterns_pos_ge_one patterns (x :: rest) n out htp
          have hdrop : ((x :: rest).drop n).length ≤ rest.length := by
            simp [List.length_drop]; omega
          show (optimizeLoop f ((x :: rest).drop n)).map (out ++ ·)
              = (optimizeLoop rest.length ((x :: rest).drop n)).map (out ++ ·)
          rw [ih f (Nat.lt_succ_self _) _ (le_trans hdrop hrest),
              ih rest.length (Nat.lt_succ_of_le hrest) _ hdrop]

theorem optimize_nil : optimize [] = some [] := rfl

theorem optimize_cons_crash (x : El) (rest : List El)
    (h : tryPatterns patterns (x :: rest) = none) : optimize (x :: rest) = none := by
  show optimizeLoop (x :: rest).length (x :: rest) = none
  simp only [List.length_cons, optimizeLoop]
  rw [h]

theorem optimize_cons_keep (x : El) (rest : List El)
    (h : tryPatterns patterns (x :: rest) = some none) :
    optimize (x :: rest) = (optimize rest).map (x :: ·) := by
  show optimizeLoop (x :: rest).length (x :: rest) = _
  simp only [List.length_cons, optimizeLoop]
  rw [h]
  rfl

theorem optimize_cons_step (x : El) (rest : List El) (n : Nat) (out : List El)
    (h : tryPatterns patterns (x :: rest) = some (some (n, out))) :
    optimize (x :: rest) = (optimize ((x :: rest).drop n)).map (out ++ ·) := by
  have hn : 1 ≤ n := tryPatterns_pos_ge_one patterns (x :: rest) n out h
  show optimizeLoop (x :: rest).length (x :: rest) = _
  simp only [List.length_cons, optimizeLoop]
  rw [h]
  show (optimizeLoop rest.length ((x :: rest).drop n)).map (out ++ ·) = _
  rw [optimizeLoop_eq rest.length ((x :: rest).drop n) (by simp [List.length_drop]; omega)]

/-! ### Shape predicates and matcher inversion lemmas -/

/-- The element is an `Instruction` of the `add rd, rs, $zero` shape that
`_match_add_zero` fires on. -/
def AddZeroShape (x : El) : Prop :=
  ∃ i, x = El.instr i ∧ i.opcode = "add" ∧ i.args.length = 3 ∧ i.args[2]? = some "$zero"

/-- If `x` is a `sw` and `y` a `lw`, then both second operands exist and
differ (so `_match_redundant_load_store` returns 0 rather than 2 or a raise). -/
def SwLwBlocked (x y : El) : Prop :=
  ∀ i j, x = El.instr i → y = El.instr j → i.opcode = "sw" → j.opcode = "lw" →
    ∃ a b, i.args[1]? = some a ∧ j.args[1]? = some b ∧ a ≠ b

theorem list_eq_of_length_three {α : Type} (l : List α) (h : l.length = 3) :
    ∃ a b c, l = [a, b, c] := by
  match l with
  | [a, b, c] => exact ⟨a, b, c, rfl⟩
  | [] | [_] | [_, _] => simp at h
  | _ :: _ :: _ :: _ :: _ => simp at h

theorem getElem0_exists_of_getElem1 {α : Type} (l : List α) (a : α) (h : l[1]? = some a) :
    ∃ b, l[0]? = some b := by
  match l with
  | [] => simp at h
  | b :: t => exact ⟨b, by simp⟩

theorem matchAddZero_cases (s : List El) (n : Nat) (h : matchAddZero s = some n) :
    n = 0 ∨ (n = 1 ∧ ∃ i r, s = El.instr i :: r ∧ i.opcode = "add" ∧
      i.args.length = 3 ∧ i.args[2]? = some "$zero") := by
  match s with
  | [] => left; simpa [matchAddZero] using h.symm
  | El.label l :: r => left; simpa [matchAddZero] using h.symm
  | El.instr i :: r =>
    simp only [matchAddZero] at h
    split at h
    · rename_i hc
      right
      exact ⟨by simpa using h.symm, i, r, rfl, hc.1, hc.2.1, hc.2.2⟩
    · left; simpa using h.symm

theorem matchRedundantMove_cases (s : List El) (n : Nat) (h : matchRedundantMove s = some n) :
    n = 0 ∨ (n = 2 ∧ ∃ f sec r, s = El.instr f :: El.instr sec :: r ∧
      f.opcode = "move" ∧ sec.opcode = "add" ∧ sec.args.length = 3 ∧
      sec.args[2]? = some "$zero" ∧ ∃ a0, f.args[0]? = some a0 ∧ sec.args[1]? = some a0) := by
  match s with
  | [] => left; simpa [matchRedundantMove] using h.symm
  | [El.instr i] => left; simpa [matchRedundantMove] using h.symm
  | [El.label l] => left; simpa [matchRedundantMove] using h.symm
  | El.label l :: y :: r => left; simpa [matchRedundantMove] using h.symm
  | El.instr i :: El.label l :: r => left; simpa [matchRedundantMove] using h.symm
  | El.instr f :: El.instr sec :: r =>
    simp only [matchRedundantMove] at h
    by_cases hc : f.opcode = "move" ∧ sec.opcode = "add" ∧ sec.args.length = 3 ∧
        sec.args[2]? = some "$zero"
    · rw [if_pos hc] at h
      cases ha : f.args[0]? with
      | none =>
        rw [ha] at h
        replace h : (none : Option Nat) = some n := h
        simp at h
      | some a0 =>
        rw [ha] at h
        replace h : (if sec.args[1]? = some a0 then some 2 else some 0) = some n := h
        by_cases hb : sec.args[1]? = some a0
        · rw [if_pos hb] at h
          right
          exact ⟨by simpa using h.symm, f, sec, r, rfl, hc.1, hc.2.1, hc.2.2.1, hc.2.2.2,
                 a0, ha, hb⟩
        · rw [if_neg hb] at h
          left; simpa using h.symm
    · rw [if_neg hc] at h
      left; simpa using h.symm

theorem matchRedundantLoadStore_cases (s : List El) (n : Nat)
    (h : matchRedundantLoadStore s = some n) :
    n = 0 ∨ (n = 2 ∧ ∃ st ld r, s = El.instr st :: El.instr ld :: r ∧
      st.opcode = "sw" ∧ ld.opcode = "lw" ∧
      ∃ m1, st.args[1]? = some m1 ∧ ld.args[1]? = some m1) := by
  match s with
  | [] => left; simpa [matchRedundantLoadStore] using h.symm
  | [El.instr i] => left; simpa [matchRedundantLoadStore] using h.symm
  | [El.label l] => left; simpa [matchRedundantLoadStore] using h.symm
  | El.label l :: y :: r => left; simpa [matchRedundantLoadStore] using h.symm
  | El.instr i :: El.label l :: r => left; simpa [matchRedundantLoadStore] using h.symm
  | El.instr st :: El.instr ld :: r =>
    simp only [matchRedundantLoadStore] at h
    by_cases hc : st.opcode = "sw" ∧ ld.opcode = "lw"
    · rw [if_pos hc] at h
      cases ha : st.args[1]? with
      | none =>
        rw [ha] at h
        replace h : (none : Option Nat) = some n := h
        simp at h
      | some s1 =>
        rw [ha] at h
        replace h : (match ld.args[1]? with
          | none => none
          | some l1 => if s1 = l1 then some 2 else some 0) = some n := h
        cases hb : ld.args[1]? with
        | none =>
          rw [hb] at h
          replace h : (none : Option Nat) = some n := h
          simp at h
        | some l1 =>
          rw [hb] at h
          replace h : (if s1 = l1 then some 2 else some 0) = some n := h
          by_cases heq : s1 = l1
          · rw [if_pos heq] at h
            right
            exact ⟨by simpa using h.symm, st, ld, r, rfl, hc.1, hc.2, s1, ha, heq ▸ hb⟩
          · rw [if_neg heq] at h
            left; simpa using h.symm
    · rw [if_neg hc] at h
      left; simpa using h.symm

/-! ### Zero-direction matcher lemmas -/

theorem matchAddZero_zero_of_not_shape (x : El) (r : List El) (hx : ¬ AddZeroShape x) :
    matchAddZero (x :: r) = some 0 := by
  cases x with
  | label l => rfl
  | instr i =>
    simp only [matchAddZero]
    rw [if_neg]
    intro hc
    exact hx ⟨i, rfl, hc⟩

theorem not_shape_of_matchAddZero_zero (x : El) (r : List El)
    (h : matchAddZero (x :: r) = some 0) : ¬ AddZeroShape x := by
  rintro ⟨i, rfl, hc⟩
  simp only [matchAddZero, if_pos hc] at h
  exact absurd h (by simp)

theorem matchRedundantMove_zero_short (x : El) : matchRedundantMove [x] = some 0 := by
  cases x <;> rfl

theorem matchRedundantMove_zero_of_not_shape (x y : El) (r : List El)
    (hy : ¬ AddZeroShape y) : matchRedundantMove (x :: y :: r) = some 0 := by
  cases x with
  | label l => cases y <;> rfl
  | instr f =>
    cases y with
    | label l => rfl
    | instr sec =>
      simp only [matchRedundantMove]
      rw [if_neg]
      intro hc
      exact hy ⟨sec, rfl, hc.2.1, hc.2.2.1, hc.2.2.2⟩

theorem matchRedundantLoadStore_zero_short (x : El) :
    matchRedundantLoadStore [x] = some 0 := by
  cases x <;> rfl

theorem matchRedundantLoadStore_zero_of_blocked (x y : El) (r : List El)
    (hxy : SwLwBlocked x y) : matchRedundantLoadStore (x :: y :: r) = some 0 := by
  cases x with
  | label l => cases y <;> rfl
  | instr st =>
    cases y with
    | label l => rfl
    | instr ld =>
      simp only [matchRedundantLoadStore]
      by_cases hc : st.opcode = "sw" ∧ ld.opcode = "lw"
      · rw [if_pos hc]
        obtain ⟨a, b, ha, hb, hne⟩ := hxy st ld rfl rfl hc.1 hc.2
        rw [ha, hb]
        show (if a = b then some 2 else some 0) = some 0
        rw [if_neg hne]
      · rw [if_neg hc]

theorem swLwBlocked_of_matchRedundantLoadStore_zero (st ld : Instruction) (r : List El)
    (h : matchRedundantLoadStore (El.instr st :: El.instr ld :: r) = some 0) :
    SwLwBlocked (El.instr st) (El.instr ld) := by
  rintro i j hi hj hsw hlw
  cases hi; cases hj
  simp only [matchRedundantLoadStore, if_pos (And.intro hsw hlw)] at h
  cases ha : st.args[1]? with
  | none =>
    rw [ha] at h
    replace h : (none : Option Nat) = some 0 := h
    simp at h
  | some a =>
    rw [ha] at h
    replace h : (match ld.args[1]? with
      | none => none
      | some l1 => if a = l1 then some 2 else some 0) = some 0 := h
    cases hb : ld.args[1]? with
    | none =>
      rw [hb] at h
      replace h : (none : Option Nat) = some 0 := h
      simp at h
    | some b =>
      rw [hb] at h
      replace h : (if a = b then some 2 else some 0) = some 0 := h
      by_cases heq : a = b
      · rw [if_pos heq] at h; exact absurd h (by simp)
      · exact ⟨a, b, rfl, rfl, heq⟩

/-! ### Characterizing one step of the pattern loop -/

theorem tryPatterns_keep_elim (s : List El) (h : tryPatterns patterns s = some none) :
    matchAddZero s = some 0 ∧ matchRedundantMove s = some 0 ∧
    matchRedundantLoadStore s = some 0 := by
  simp only [patterns, tryPatterns] at h
  cases hAZ : matchAddZero s with
  | none => rw [hAZ] at h; simp at h
  | some k =>
    rw [hAZ] at h
    cases k with
    | succ k =>
      replace h : (match transformAddZero (s.take (k + 1)) with
        | none => none
        | some out => some (some (k + 1, out))) = some none := h
      cases ht : transformAddZero (s.take (k + 1)) <;> rw [ht] at h <;> simp at h
    | zero =>
      replace h : (match matchRedundantMove s with
        | none => (none : Option (Option (Nat × List El)))
        | some 0 =>
          match matchRedundantLoadStore s with
          | none => none
          | some 0 => some none
          | some (n + 1) =>
            match transformRedundantLoadStore (s.take (n + 1)) with
            | none => none
            | some out => some (some (n + 1, out))
        | some (n + 1) =>
          match transformRedundantMove (s.take (n + 1)) with
          | none => none
          | some out => some (some (n + 1, out))) = some none := h
      cases hRM : matchRedundantMove s with
      | none => rw [hRM] at h; simp at h
      | some k =>
        rw [hRM] at h
        cases k with
        | succ k =>
          replace h : (match transformRedundantMove (s.take (k + 1)) with
            | none => none
            | some out => some (some (k + 1, out))) = some none := h
          cases ht : transformRedundantMove (s.take (k + 1)) <;> rw [ht] at h <;> simp at h
        | zero =>
          replace h : (match matchRedundantLoadStore s with
            | none => (none : Option (Option (Nat × List El)))
            | some 0 => some none
            | some (n + 1) =>
              match transformRedundantLoadStore (s.take (n + 1)) with
              | none => none
              | some out => some (some (n + 1, out))) = some none := h
          cases hLS : matchRedundantLoadStore s with
          | none => rw [hLS] at h; simp at h
          | some k =>
            rw [hLS] at h
            cases k with
            | succ k =>
              replace h : (match transformRedundantLoadStore (s.take (k + 1)) with
                | none => none
                | some out => some (some (k + 1, out))) = some none := h
              cases ht : transformRedundantLoadStore (s.take (k + 1)) <;> rw [ht] at h <;>
                simp at h
            | zero => exact ⟨rfl, rfl, rfl⟩

theorem tryPatterns_keep_intro (s : List El) (h1 : matchAddZero s = some 0)
    (h2 : matchRedundantMove s = some 0) (h3 : matchRedundantLoadStore s = some 0) :
    tryPatterns patterns s = some none := by
  simp only [patterns, tryPatterns, h1, h2, h3]

theorem tryPatterns_step_elim (s : List El) (n : Nat) (out : List El)
    (h : tryPatterns patterns s = some (some (n, out))) :
    (n = 1 ∧ matchAddZero s = some 1 ∧ transformAddZero (s.take 1) = some out) ∨
    (n = 2 ∧ matchRedundantMove s = some 2 ∧
      transformRedundantMove (s.take 2) = some out) ∨
    (n = 2 ∧ matchRedundantLoadStore s = some 2 ∧
      transformRedundantLoadStore (s.take 2) = some out) := by
  simp only [patterns, tryPatterns] at h
  cases hAZ : matchAddZero s with
  | none => rw [hAZ] at h; simp at h
  | some k =>
    rw [hAZ] at h
    cases k with
    | succ k =>
      replace h : (match transformAddZero (s.take (k + 1)) with
        | none => none
        | some o => some (some (k + 1, o))) = some (some (n, out)) := h
      cases ht : transformAddZero (s.take (k + 1)) with
      | none => rw [ht] at h; simp at h
      | some o =>
        rw [ht] at h
        replace h : some (some (k + 1, o)) = some (some (n, out)) := h
        have hk : k + 1 = n ∧ o = out := by simpa using h
        obtain ⟨hk1, rfl⟩ := hk
        rcases matchAddZero_cases s (k + 1) hAZ with h0 | ⟨h1, _⟩
        · simp at h0
        · left
          have hk0 : k = 0 := by omega
          subst hk0
          exact ⟨by omega, congrArg some h1, ht⟩
    | zero =>
      replace h : (match matchRedundantMove s with
        | none => (none : Option (Option (Nat × List El)))
        | some 0 =>
          match matchRedundantLoadStore s with
          | none => none
          | some 0 => some none
          | some (m + 1) =>
            match transformRedundantLoadStore (s.take (m + 1)) with
            | none => none
            | some o => some (some (m + 1, o))
        | some (m + 1) =>
          match transformRedundantMove (s.take (m + 1)) with
          | none => none
          | some o => some (some (m + 1, o))) = some (some (n, out)) := h
      cases hRM : matchRedundantMove s with
      | none => rw [hRM] at h; simp at h
      | some k =>
        rw [hRM] at h
        cases k with
        | succ k =>
          replace h : (match transformRedundantMove (s.take (k + 1)) with
            | none => none
            | some o => some (some (k + 1, o))) = some (some (n, out)) := h
          cases ht : transformRedundantMove (s.take (k + 1)) with
          | none => rw [ht] at h; simp at h
          | some o =>
            rw [ht] at h
            replace h : some (some (k + 1, o)) = some (some (n, out)) := h
            have hk : k + 1 = n ∧ o = out := by simpa using h
            obtain ⟨hk1, rfl⟩ := hk
            rcases matchRedundantMove_cases s (k + 1) hRM with h0 | ⟨h2, _⟩
            · simp at h0
            · right; left
              have hk0 : k = 1 := by omega
              subst hk0
              exact ⟨by omega, congrArg some h2, ht⟩
        | zero =>
          replace h : (match matchRedundantLoadStore s with
            | none => (none : Option (Option (Nat × List El)))
            | some 0 => some none
            | some (m + 1) =>
              match transformRedundantLoadStore (s.take (m + 1)) with
              | none => none
              | some o => some (some (m + 1, o))) = some (some (n, out)) := h
          cases hLS : matchRedundantLoadStore s with
          | none => rw [hLS] at h; simp at h
          | some k =>
            rw [hLS] at h
            cases k with
            | zero =>
              replace h : (some none : Option (Option (Nat × List El)))
                  = some (some (n, out)) := h
              simp at h
            | succ k =>
              replace h : (match transformRedundantLoadStore (s.take (k + 1)) with
                | none => none
                | some o => some (some (k + 1, o))) = some (some (n, out)) := h
              cases ht : transformRedundantLoadStore (s.take (k + 1)) with
              | none => rw [ht] at h; simp at h
              | some o =>
                rw [ht] at h
                replace h : some (some (k + 1, o)) = some (some (n, out)) := h
                have hk : k + 1 = n ∧ o = out := by simpa using h
                obtain ⟨hk1, rfl⟩ := hk
                rcases matchRedundantLoadStore_cases s (k + 1) hLS with h0 | ⟨h2, _⟩
                · simp at h0
                · right; right
                  have hk0 : k = 1 := by omega
                  subst hk0
                  exact ⟨by omega, congrArg some h2, ht⟩

/-! ### Transformer evaluation lemmas -/

theorem transformAddZero_eval (i : Instruction) (r : List El) (a0 a1 : String)
    (h0 : i.args[0]? = some a0) (h1 : i.args[1]? = some a1) :
    transformAddZero (El.instr i :: r) =
      some [El.instr { opcode := "move", args := [a0, a1],
                       comment := some ("Optimized from: " ++ pyStr i.originalText),
                       originalText := none }] := by
  simp only [transformAddZero, h0, h1]

theorem transformRedundantMove_eval (f sec : Instruction) (r : List El) (d s : String)
    (h0 : sec.args[0]? = some d) (h1 : f.args[1]? = some s) :
    transformRedundantMove (El.instr f :: El.instr sec :: r) =
      some [El.instr { opcode := "move", args := [d, s],
                       comment := some ("Optimized from: " ++ pyStr f.originalText
                                         ++ " and " ++ pyStr sec.originalText),
                       originalText := none }] := by
  simp only [transformRedundantMove, h0, h1]

theorem transformRedundantMove_crash (f sec : Instruction) (r : List El)
    (h1 : f.args[1]? = none) :
    transformRedundantMove (El.instr f :: El.instr sec :: r) = none := by
  cases h0 : sec.args[0]? <;> simp only [transformRedundantMove, h0, h1]

theorem transformRedundantLoadStore_eval (st ld : Instruction) (r : List El) (d s : String)
    (h0 : ld.args[0]? = some d) (h1 : st.args[0]? = some s) :
    transformRedundantLoadStore (El.instr st :: El.instr ld :: r) =
      some [El.instr st,
            El.instr { opcode := "move", args := [d, s],
                       comment := some ("Optimized from: " ++ pyStr ld.originalText),
                       originalText := none }] := by
  simp only [transformRedundantLoadStore, h0, h1]

/-! ### Shape of a matched step: what the loop consumes and what it emits -/

theorem step_out_shape (s : List El) (n : Nat) (out : List El)
    (h : tryPatterns patterns s = some (some (n, out))) :
    (∃ mv, out = [El.instr mv] ∧ mv.opcode = "move") ∨
    (∃ st mv, out = [El.instr st, El.instr mv] ∧ st.opcode = "sw" ∧ mv.opcode = "move") := by
  rcases tryPatterns_step_elim s n out h with ⟨_, hAZ, hT⟩ | ⟨_, hRM, hT⟩ | ⟨_, hLS, hT⟩
  · rcases matchAddZero_cases s 1 hAZ with h0 | ⟨_, i, r, rfl, hop, hlen, hz⟩
    · simp at h0
    · obtain ⟨a, b, c, habc⟩ := list_eq_of_length_three i.args hlen
      rw [show (El.instr i :: r).take 1 = [El.instr i] by simp,
          transformAddZero_eval i [] a b (by simp [habc]) (by simp [habc])] at hT
      replace hT : _ = out := Option.some.inj hT
      exact Or.inl ⟨_, hT.symm, rfl⟩
  · rcases matchRedundantMove_cases s 2 hRM with h0 | ⟨_, f, sec, r, rfl, hfop, hsop, hlen,
      hz, a0, ha0, hb0⟩
    · simp at h0
    · obtain ⟨a, b, c, habc⟩ := list_eq_of_length_three sec.args hlen
      cases hf1 : f.args[1]? with
      | none =>
        rw [show (El.instr f :: El.instr sec :: r).take 2 = [El.instr f, El.instr sec] by simp,
            transformRedundantMove_crash f sec [] hf1] at hT
        exact absurd hT (by simp)
      | some s1 =>
        rw [show (El.instr f :: El.instr sec :: r).take 2 = [El.instr f, El.instr sec] by simp,
            transformRedundantMove_eval f sec [] a s1 (by simp [habc]) hf1] at hT
        replace hT : _ = out := Option.some.inj hT
        exact Or.inl ⟨_, hT.symm, rfl⟩
  · rcases matchRedundantLoadStore_cases s 2 hLS with h0 | ⟨_, st, ld, r, rfl, hsw, hlw,
      m1, hm1, hm2⟩
    · simp at h0
    · obtain ⟨d, hd⟩ := getElem0_exists_of_getElem1 ld.args m1 hm2
      obtain ⟨e, he⟩ := getElem0_exists_of_getElem1 st.args m1 hm1
      rw [show (El.instr st :: El.instr ld :: r).take 2 = [El.instr st, El.instr ld] by simp,
          transformRedundantLoadStore_eval st ld [] d e hd he] at hT
      replace hT : _ = out := Option.some.inj hT
      exact Or.inr ⟨st, _, hT.symm, hsw, rfl⟩

theorem step_consumed_instrs (s : List El) (n : Nat) (out : List El)
    (h : tryPatterns patterns s = some (some (n, out))) :
    ∀ y ∈ s.take n, elIsLabel y = false := by
  rcases tryPatterns_step_elim s n out h with ⟨hn, hAZ, _⟩ | ⟨hn, hRM, _⟩ | ⟨hn, hLS, _⟩
  · rcases matchAddZero_cases s 1 hAZ with h0 | ⟨_, i, r, rfl, _⟩
    · simp at h0
    · subst hn
      intro y hy
      rw [show (El.instr i :: r).take 1 = [El.instr i] by simp] at hy
      simp at hy
      subst hy
      rfl
  · rcases matchRedundantMove_cases s 2 hRM with h0 | ⟨_, f, sec, r, rfl, _⟩
    · simp at h0
    · subst hn
      intro y hy
      rw [show (El.instr f :: El.instr sec :: r).take 2
            = [El.instr f, El.instr sec] by simp] at hy
      simp at hy
      rcases hy with rfl | rfl <;> rfl
  · rcases matchRedundantLoadStore_cases s 2 hLS with h0 | ⟨_, st, ld, r, rfl, _⟩
    · simp at h0
    · subst hn
      intro y hy
      rw [show (El.instr st :: El.instr ld :: r).take 2
            = [El.instr st, El.instr ld] by simp] at hy
      simp at hy
      rcases hy with rfl | rfl <;> rfl

/-! ### The idempotence invariant: no further pattern can match the output -/

/-- Invariant satisfied by every output of `optimize`: no element has the
add-zero shape, and no adjacent `sw`/`lw` pair shares (or lacks) its second
operand. -/
def Good (t : List El) : Prop :=
  (∀ x ∈ t, ¬ AddZeroShape x) ∧ t.Chain' SwLwBlocked

theorem good_nil : Good [] := ⟨by simp, List.chain'_nil⟩

theorem noMatch_of_good (x : El) (rest : List El) (hg : Good (x :: rest)) :
    tryPatterns patterns (x :: rest) = some none := by
  obtain ⟨helem, hchain⟩ := hg
  have hAZ : matchAddZero (x :: rest) = some 0 :=
    matchAddZero_zero_of_not_shape x rest (helem x (by simp))
  have hRM : matchRedundantMove (x :: rest) = some 0 := by
    cases rest with
    | nil => exact matchRedundantMove_zero_short x
    | cons y r => exact matchRedundantMove_zero_of_not_shape x y r (helem y (by simp))
  have hLS : matchRedundantLoadStore (x :: rest) = some 0 := by
    cases rest with
    | nil => exact matchRedundantLoadStore_zero_short x
    | cons y r =>
      exact matchRedundantLoadStore_zero_of_blocked x y r (List.chain'_cons.mp hchain).1
  exact tryPatterns_keep_intro _ hAZ hRM hLS

theorem optimize_of_good : ∀ t : List El, Good t → optimize t = some t := by
  intro t
  induction t with
  | nil => intro _; rfl
  | cons x rest ih =>
    intro hg
    rw [optimize_cons_keep x rest (noMatch_of_good x rest hg)]
    have hg2 : Good rest := by
      obtain ⟨he, hc⟩ := hg
      exact ⟨fun y hy => he y (by simp [hy]), hc.tail⟩
    rw [ih hg2]
    rfl

theorem optimize_head_lw (r u : List El) (j : Instruction) (h : optimize r = some u)
    (hu : u.head? = some (El.instr j)) (hj : j.opcode = "lw") :
    r.head? = some (El.instr j) := by
  match r with
  | [] =>
    replace h : some ([] : List El) = some u := h
    have hu2 : u = ([] : List El) := (Option.some.inj h).symm
    subst hu2
    simp at hu
  | x :: rest =>
    cases htp : tryPatterns patterns (x :: rest) with
    | none =>
      rw [optimize_cons_crash x rest htp] at h
      exact absurd h (by simp)
    | some o =>
      cases o with
      | none =>
        rw [optimize_cons_keep x rest htp] at h
        cases hr : optimize rest with
        | none => rw [hr] at h; simp at h
        | some t1 =>
          rw [hr] at h
          have hxu : x :: t1 = u := by simpa using h
          subst hxu
          simp at hu
          simp [hu]
      | some p =>
        obtain ⟨n, out⟩ := p
        rw [optimize_cons_step x rest n out htp] at h
        cases hr : optimize ((x :: rest).drop n) with
        | none => rw [hr] at h; simp at h
        | some t1 =>
          rw [hr] at h
          have hou : out ++ t1 = u := by simpa using h
          subst hou
          rcases step_out_shape _ _ _ htp with ⟨mv, rfl, hmv⟩ | ⟨st, mv, rfl, hst, hmv⟩
          · simp at hu
            rw [← hu] at hj
            rw [hmv] at hj
            exact absurd hj (by simp)
          · simp at hu
            rw [← hu] at hj
            rw [hst] at hj
            exact absurd hj (by simp)

theorem optimize_good_aux : ∀ (n : Nat) (s t : List El), s.length ≤ n →
    optimize s = some t → Good t := by
  intro n
  induction n with
  | zero =>
    intro s t hs h
    match s with
    | [] =>
      replace h : some ([] : List El) = some t := h
      have ht : t = ([] : List El) := (Option.some.inj h).symm
      subst ht
      exact good_nil
  | succ n ih =>
    intro s t hs h
    match s with
    | [] =>
      replace h : some ([] : List El) = some t := h
      have ht : t = ([] : List El) := (Option.some.inj h).symm
      subst ht
      exact good_nil
    | x :: rest =>
      have hrest : rest.length ≤ n := by simpa using hs
      cases htp : tryPatterns patterns (x :: rest) with
      | none =>
        rw [optimize_cons_crash x rest htp] at h
        exact absurd h (by simp)
      | some o =>
        cases o with
        | none =>
          rw [optimize_cons_keep x rest htp] at h
          cases hr : optimize rest with
          | none => rw [hr] at h; simp at h
          | some t1 =>
            rw [hr] at h
            have hxu : x :: t1 = t := by simpa using h
            subst hxu
            obtain ⟨hAZ, hRM, hLS⟩ := tryPatterns_keep_elim _ htp
            obtain ⟨he1, hc1⟩ := ih rest t1 hrest hr
            constructor
            · intro y hy
              rcases List.mem_cons.mp hy with rfl | hy2
              · exact not_shape_of_matchAddZero_zero y rest hAZ
              · exact he1 y hy2
            · rw [List.chain'_cons']
              refine ⟨?_, hc1⟩
              intro y hy
              rintro i jj hxi hyj hsw hlw
              subst hxi
              subst hyj
              have hhd : rest.head? = some (El.instr jj) :=
                optimize_head_lw rest t1 jj hr hy hlw
              match rest, hhd with
              | El.instr jj2 :: r2, hhd =>
                have hjj : jj2 = jj := by
                  have := Option.some.inj hhd
                  exact El.instr.inj this
                subst hjj
                exact swLwBlocked_of_matchRedundantLoadStore_zero i jj2 r2 hLS
                  i jj2 rfl rfl hsw hlw
        | some p =>
          obtain ⟨n2, out⟩ := p
          rw [optimize_cons_step x rest n2 out htp] at h
          cases hr : optimize ((x :: rest).drop n2) with
          | none => rw [hr] at h; simp at h
          | some t1 =>
            rw [hr] at h
            have hou : out ++ t1 = t := by simpa using h
            subst hou
            have hn2 : 1 ≤ n2 := tryPatterns_pos_ge_one patterns (x :: rest) n2 out htp
            have hdlen : ((x :: rest).drop n2).length ≤ n := by
              simp [List.length_drop]
              omega
            obtain ⟨he1, hc1⟩ := ih _ t1 hdlen hr
            have houtshape := step_out_shape _ _ _ htp
            constructor
            · intro y hy
              rcases List.mem_append.mp hy with hyo | hy1
              · rcases houtshape with ⟨mv, rfl, hmv⟩ | ⟨st, mv, rfl, hst, hmv⟩
                · simp at hyo
                  subst hyo
                  rintro ⟨i2, hi2, hop, _⟩
                  rw [El.instr.inj hi2] at hmv
                  rw [hop] at hmv
                  exact absurd hmv (by simp)
                · simp at hyo
                  rcases hyo with rfl | rfl
                  · rintro ⟨i2, hi2, hop, _⟩
                    rw [El.instr.inj hi2] at hst
                    rw [hop] at hst
                    exact absurd hst (by simp)
                  · rintro ⟨i2, hi2, hop, _⟩
                    rw [El.instr.inj hi2] at hmv
                    rw [hop] at hmv
                    exact absurd hmv (by simp)
              · exact he1 y hy1
            · rw [List.chain'_append]
              refine ⟨?_, hc1, ?_⟩
              · rcases houtshape with ⟨mv, rfl, hmv⟩ | ⟨st, mv, rfl, hst, hmv⟩
                · exact List.chain'_singleton _
                · rw [List.chain'_pair]
                  rintro i2 j2 hi2 hj2 hsw hlw
                  rw [← El.instr.inj hj2, hmv] at hlw
                  exact absurd hlw (by simp)
              · intro y hy z hz
                rcases houtshape with ⟨mv, rfl, hmv⟩ | ⟨st, mv, rfl, hst, hmv⟩
                · simp at hy
                  subst hy
                  rintro i2 j2 hi2 hj2 hsw hlw
                  rw [← El.instr.inj hi2, hmv] at hsw
                  exact absurd hsw (by simp)
                · simp at hy
                  subst hy
                  rintro i2 j2 hi2 hj2 hsw hlw
                  rw [← El.instr.inj hi2, hmv] at hsw
                  exact absurd hsw (by simp)

/-- Every successful run of `optimize` yields a `Good` list. -/
theorem optimize_good (s t : List El) (h : optimize s = some t) : Good t :=
  optimize_good_aux s.length s t le_rfl h

/-- Idempotence core: a second pass returns its input unchanged. -/
theorem optimize_idem (s t : List El) (h : optimize s = some t) : optimize t = some t :=
  optimize_of_good t (optimize_good s t h)

/-! ### Labels pass through `optimize` unchanged, in order -/

theorem optimize_filter_labels_aux : ∀ (n : Nat) (s t : List El), s.length ≤ n →
    optimize s = some t → t.filter elIsLabel = s.filter elIsLabel := by
  intro n
  induction n with
  | zero =>
    intro s t hs h
    match s with
    | [] =>
      replace h : some ([] : List El) = some t := h
      have ht : t = ([] : List El) := (Option.some.inj h).symm
      subst ht
      rfl
  | succ n ih =>
    intro s t hs h
    match s with
    | [] =>
      replace h : some ([] : List El) = some t := h
      have ht : t = ([] : List El) := (Option.some.inj h).symm
      subst ht
      rfl
    | x :: rest =>
      have hrest : rest.length ≤ n := by simpa using hs
      cases htp : tryPatterns patterns (x :: rest) with
      | none =>
        rw [optimize_cons_crash x rest htp] at h
        exact absurd h (by simp)
      | some o =>
        cases o with
        | none =>
          rw [optimize_cons_keep x rest htp] at h
          cases hr : optimize rest with
          | none => rw [hr] at h; simp at h
          | some t1 =>
            rw [hr] at h
            have hxu : x :: t1 = t := by simpa using h
            subst hxu
            rw [List.filter_cons, List.filter_cons, ih rest t1 hrest hr]
        | some p =>
          obtain ⟨n2, out⟩ := p
          rw [optimize_cons_step x rest n2 out htp] at h
          cases hr : optimize ((x :: rest).drop n2) with
          | none => rw [hr] at h; simp at h
          | some t1 =>
            rw [hr] at h
            have hou : out ++ t1 = t := by simpa using h
            subst hou
            have hn2 : 1 ≤ n2 := tryPatterns_pos_ge_one patterns (x :: rest) n2 out htp
            have hdlen : ((x :: rest).drop n2).length ≤ n := by
              simp [List.length_drop]
              omega
            have hout : out.filter elIsLabel = [] := by
              rw [List.filter_eq_nil_iff]
              rcases step_out_shape _ _ _ htp with ⟨mv, rfl, _⟩ | ⟨st, mv, rfl, _, _⟩
              · intro a ha
                simp at ha
                subst ha
                simp [elIsLabel]
              · intro a ha
                simp at ha
                rcases ha with rfl | rfl <;> simp [elIsLabel]
            have htake : ((x :: rest).take n2).filter elIsLabel = [] := by
              rw [List.filter_eq_nil_iff]
              intro a ha
              simp [step_consumed_instrs _ _ _ htp a ha]
            calc (out ++ t1).filter elIsLabel
                = out.filter elIsLabel ++ t1.filter elIsLabel := List.filter_append _ _
              _ = t1.filter elIsLabel := by rw [hout]; rfl
              _ = ((x :: rest).drop n2).filter elIsLabel := ih _ t1 hdlen hr
              _ = ((x :: rest).take n2).filter elIsLabel
                    ++ ((x :: rest).drop n2).filter elIsLabel := by rw [htake]; rfl
              _ = (((x :: rest).take n2) ++ ((x :: rest).drop n2)).filter elIsLabel :=
                    (List.filter_append _ _).symm
              _ = (x :: rest).filter elIsLabel := by rw [List.take_append_drop]

/-- Labels survive `optimize` verbatim and in order. -/
theorem optimize_filter_labels (s t : List El) (h : optimize s = some t) :
    t.filter elIsLabel = s.filter elIsLabel :=
  optimize_filter_labels_aux s.length s t le_rfl h

/-! ## Claim theorems -/

/-- C1: REFUTED by the code (code bug).  The spec demands that every operand
access in a matcher be preceded by an operand-count check, but
`_match_redundant_load_store` reads `store.args[1]` / `load.args[1]` with no
length guard, and `_match_redundant_move` reads `first.args[0]` with no length
guard, so `optimize` raises IndexError (modelled as `none`) on an `sw` with one
operand followed by a well-formed `lw`, and on an operand-less `move` followed
by an add-zero. -/
theorem c1_unguarded_matcher_crashes :
    matchRedundantLoadStore
      [El.instr { opcode := "sw", args := ["$t1"] },
       El.instr { opcode := "lw", args := ["$t2", "0($sp)"] }] = none ∧
    matchRedundantMove
      [El.instr { opcode := "move", args := [] },
       El.instr { opcode := "add", args := ["$t2", "$t1", "$zero"] }] = none ∧
    optimize
      [El.instr { opcode := "sw", args := ["$t1"] },
       El.instr { opcode := "lw", args := ["$t2", "0($sp)"] }] = none := by
  decide

/-- C2 (as stated): REFUTED.  There is no input sequence on which a second
`optimize` pass reduces further: the three registered patterns can never match
inside the output of a completed pass. -/
theorem c2_not_idempotent_refuted :
    ¬ ∃ s t : List El, optimize s = some t ∧ optimize t ≠ some t := by
  rintro ⟨s, t, h1, h2⟩
  exact h2 (optimize_idem s t h1)

/-- C2 (amended): `optimize` is idempotent — whenever one pass completes
without raising, feeding its output back in returns that output unchanged. -/
theorem c2_optimize_idempotent (s t : List El) (h : optimize s = some t) :
    optimize t = some t :=
  optimize_idem s t h

theorem c2_optimize_idempotent_witness :
    optimize [El.instr { opcode := "move", args := ["$t1", "$t0"] },
              El.instr { opcode := "add", args := ["$t2", "$t1", "$zero"] },
              El.instr { opcode := "add", args := ["$t3", "$t2", "$zero"] }] =
      some [El.instr { opcode := "move", args := ["$t2", "$t0"],
                       comment := some "Optimized from: None and None" },
            El.instr { opcode := "move", args := ["$t3", "$t2"],
                       comment := some "Optimized from: None" }] ∧
    optimize [El.instr { opcode := "move", args := ["$t2", "$t0"],
                         comment := some "Optimized from: None and None" },
              El.instr { opcode := "move", args := ["$t3", "$t2"],
                         comment := some "Optimized from: None" }] =
      some [El.instr { opcode := "move", args := ["$t2", "$t0"],
                       comment := some "Optimized from: None and None" },
            El.instr { opcode := "move", args := ["$t3", "$t2"],
                       comment := some "Optimized from: None" }] :=
  ⟨by decide,
   c2_optimize_idempotent
     [El.instr { opcode := "move", args := ["$t1", "$t0"] },
      El.instr { opcode := "add", args := ["$t2", "$t1", "$zero"] },
      El.instr { opcode := "add", args := ["$t3", "$t2", "$zero"] }]
     [El.instr { opcode := "move", args := ["$t2", "$t0"],
                 comment := some "Optimized from: None and None" },
      El.instr { opcode := "move", args := ["$t3", "$t2"],
                 comment := some "Optimized from: None" }]
     (by decide)⟩

/-- C5: a leading `add d, s, $zero` (exactly three operands, third the literal
`$zero`) is replaced by the single `move d, s`, with the rest of the input
optimized independently after it. -/
theorem c5_add_zero_to_move (ad : Instruction) (rest : List El) (d s : String)
    (hop : ad.opcode = "add") (hargs : ad.args = [d, s, "$zero"]) :
    optimize (El.instr ad :: rest) =
      (optimize rest).map (fun r =>
        El.instr { opcode := "move", args := [d, s],
                   comment := some ("Optimized from: " ++ pyStr ad.originalText),
                   originalText := none } :: r) := by
  have hAZ : matchAddZero (El.instr ad :: rest) = some 1 := by
    simp only [matchAddZero]
    rw [if_pos ⟨hop, by simp [hargs], by simp [hargs]⟩]
  have hT : transformAddZero ((El.instr ad :: rest).take 1) =
      some [El.instr { opcode := "move", args := [d, s],
                       comment := some ("Optimized from: " ++ pyStr ad.originalText),
                       originalText := none }] := by
    rw [show (El.instr ad :: rest).take 1 = [El.instr ad] from by simp]
    exact transformAddZero_eval ad [] d s (by simp [hargs]) (by simp [hargs])
  have hstep : tryPatterns patterns (El.instr ad :: rest) =
      some (some (1, [El.instr { opcode := "move", args := [d, s],
                                 comment := some ("Optimized from: "
                                                   ++ pyStr ad.originalText),
                                 originalText := none }])) := by
    simp only [patterns, tryPatterns, hAZ, hT]
  rw [optimize_cons_step _ _ _ _ hstep]
  have hd : (El.instr ad :: rest).drop 1 = rest := rfl
  rw [hd]
  cases optimize rest <;> rfl

theorem c5_add_zero_to_move_witness :
    optimize [El.instr { opcode := "add", args := ["$t0", "$s0", "$zero"] }] =
      some [El.instr { opcode := "move", args := ["$t0", "$s0"],
                       comment := some "Optimized from: None" }] := by
  have h := c5_add_zero_to_move
    { opcode := "add", args := ["$t0", "$s0", "$zero"] } [] "$t0" "$s0" rfl rfl
  rw [h]
  decide

/-- C4: a leading `move x0, s` immediately followed by `add d, x0, $zero`
(three operands, third `$zero`, second equal to the destination of the move) is
replaced by the single `move d, s`. -/
theorem c4_redundant_move_elimination (mv ad : Instruction) (rest : List El)
    (d x0 s : String)
    (hmop : mv.opcode = "move") (haop : ad.opcode = "add")
    (hargs : ad.args = [d, x0, "$zero"])
    (hm0 : mv.args[0]? = some x0) (hm1 : mv.args[1]? = some s) :
    optimize (El.instr mv :: El.instr ad :: rest) =
      (optimize rest).map (fun r =>
        El.instr { opcode := "move", args := [d, s],
                   comment := some ("Optimized from: " ++ pyStr mv.originalText
                                     ++ " and " ++ pyStr ad.originalText),
                   originalText := none } :: r) := by
  have hAZ : matchAddZero (El.instr mv :: El.instr ad :: rest) = some 0 := by
    simp only [matchAddZero]
    rw [if_neg]
    rintro ⟨h1, _⟩
    rw [hmop] at h1
    exact absurd h1 (by simp)
  have hRM : matchRedundantMove (El.instr mv :: El.instr ad :: rest) = some 2 := by
    simp only [matchRedundantMove]
    rw [if_pos ⟨hmop, haop, by simp [hargs], by simp [hargs]⟩, hm0]
    show (if ad.args[1]? = some x0 then some 2 else some 0) = some 2
    rw [if_pos (by simp [hargs])]
  have hT : transformRedundantMove ((El.instr mv :: El.instr ad :: rest).take 2) =
      some [El.instr { opcode := "move", args := [d, s],
                       comment := some ("Optimized from: " ++ pyStr mv.originalText
                                         ++ " and " ++ pyStr ad.originalText),
                       originalText := none }] := by
    rw [show (El.instr mv :: El.instr ad :: rest).take 2 = [El.instr mv, El.instr ad]
          from by simp]
    exact transformRedundantMove_eval mv ad [] d s (by simp [hargs]) hm1
  have hstep : tryPatterns patterns (El.instr mv :: El.instr ad :: rest) =
      some (some (2, [El.instr { opcode := "move", args := [d, s],
                                 comment := some ("Optimized from: "
                                                   ++ pyStr mv.originalText
                                                   ++ " and " ++ pyStr ad.originalText),
                                 originalText := none }])) := by
    simp only [patterns, tryPatterns, hAZ, hRM, hT]
  rw [optimize_cons_step _ _ _ _ hstep]
  have hd : (El.instr mv :: El.instr ad :: rest).drop 2 = rest := rfl
  rw [hd]
  cases optimize rest <;> rfl

theorem c4_redundant_move_elimination_witness :
    optimize [El.instr { opcode := "move", args := ["$t1", "$t0"] },
              El.instr { opcode := "add", args := ["$t2", "$t1", "$zero"] }] =
      some [El.instr { opcode := "move", args := ["$t2", "$t0"],
                       comment := some "Optimized from: None and None" }] := by
  have h := c4_redundant_move_elimination
    { opcode := "move", args := ["$t1", "$t0"] }
    { opcode := "add", args := ["$t2", "$t1", "$zero"] } [] "$t2" "$t1" "$t0"
    rfl rfl rfl (by decide) (by decide)
  rw [h]
  decide

/-- C3: a leading `sw s0, m` immediately followed by `lw d0, m` (same second
operand token) keeps the store verbatim and replaces the load by
`move d0, s0`. -/
theorem c3_store_load_forwarding (st ld : Instruction) (rest : List El)
    (m s0 d0 : String)
    (hsw : st.opcode = "sw") (hlw : ld.opcode = "lw")
    (hst1 : st.args[1]? = some m) (hld1 : ld.args[1]? = some m)
    (hst0 : st.args[0]? = some s0) (hld0 : ld.args[0]? = some d0) :
    optimize (El.instr st :: El.instr ld :: rest) =
      (optimize rest).map (fun r =>
        El.instr st ::
        El.instr { opcode := "move", args := [d0, s0],
                   comment := some ("Optimized from: " ++ pyStr ld.originalText),
                   originalText := none } :: r) := by
  have hAZ : matchAddZero (El.instr st :: El.instr ld :: rest) = some 0 := by
    simp only [matchAddZero]
    rw [if_neg]
    rintro ⟨h1, _⟩
    rw [hsw] at h1
    exact absurd h1 (by simp)
  have hRM : matchRedundantMove (El.instr st :: El.instr ld :: rest) = some 0 := by
    simp only [matchRedundantMove]
    rw [if_neg]
    rintro ⟨h1, _⟩
    rw [hsw] at h1
    exact absurd h1 (by simp)
  have hLS : matchRedundantLoadStore (El.instr st :: El.instr ld :: rest) = some 2 := by
    simp only [matchRedundantLoadStore]
    rw [if_pos ⟨hsw, hlw⟩, hst1]
    show (match ld.args[1]? with
      | none => none
      | some l1 => if m = l1 then some 2 else some 0) = some 2
    rw [hld1]
    show (if m = m then some 2 else some 0) = some 2
    rw [if_pos rfl]
  have hT : transformRedundantLoadStore ((El.instr st :: El.instr ld :: rest).take 2) =
      some [El.instr st,
            El.instr { opcode := "move", args := [d0, s0],
                       comment := some ("Optimized from: " ++ pyStr ld.originalText),
                       originalText := none }] := by
    rw [show (El.instr st :: El.instr ld :: rest).take 2 = [El.instr st, El.instr ld]
          from by simp]
    exact transformRedundantLoadStore_eval st ld [] d0 s0 hld0 hst0
  have hstep : tryPatterns patterns (El.instr st :: El.instr ld :: rest) =
      some (some (2, [El.instr st,
                      El.instr { opcode := "move", args := [d0, s0],
                                 comment := some ("Optimized from: "
                                                   ++ pyStr ld.originalText),
                                 originalText := none }])) := by
    simp only [patterns, tryPatterns, hAZ, hRM, hLS, hT]
  rw [optimize_cons_step _ _ _ _ hstep]
  have hd : (El.instr st :: El.instr ld :: rest).drop 2 = rest := rfl
  rw [hd]
  cases optimize rest <;> rfl

theorem c3_store_load_forwarding_witness :
    optimize [El.instr { opcode := "sw", args := ["$t1", "0($sp)"] },
              El.instr { opcode := "lw", args := ["$t2", "0($sp)"] }] =
      some [El.instr { opcode := "sw", args := ["$t1", "0($sp)"] },
            El.instr { opcode := "move", args := ["$t2", "$t1"],
                       comment := some "Optimized from: None" }] := by
  have h := c3_store_load_forwarding
    { opcode := "sw", args := ["$t1", "0($sp)"] }
    { opcode := "lw", args := ["$t2", "0($sp)"] } [] "0($sp)" "$t1" "$t2"
    rfl rfl (by decide) (by decide) (by decide) (by decide)
  rw [h]
  decide

/-- C6: matchers reject labels at the cursor or at the second inspected slot
(returning 0), labels survive `optimize` verbatim and in relative order, and a
label interposed between two otherwise-matching instructions prevents the
two-instruction match (the lone add-zero after the label is still rewritten by
the single-instruction pattern). -/
theorem c6_labels_block_and_survive :
    (∀ (l : Label) (r : List El),
      matchAddZero (El.label l :: r) = some 0 ∧
      matchRedundantMove (El.label l :: r) = some 0 ∧
      matchRedundantLoadStore (El.label l :: r) = some 0) ∧
    (∀ (x : El) (l : Label) (r : List El),
      matchRedundantMove (x :: El.label l :: r) = some 0 ∧
      matchRedundantLoadStore (x :: El.label l :: r) = some 0) ∧
    (∀ s t : List El, optimize s = some t →
      t.filter elIsLabel = s.filter elIsLabel) ∧
    optimize [El.instr { opcode := "move", args := ["$t1", "$t0"] },
              El.label { name := "L" },
              El.instr { opcode := "add", args := ["$t2", "$t1", "$zero"] }] =
      some [El.instr { opcode := "move", args := ["$t1", "$t0"] },
            El.label { name := "L" },
            El.instr { opcode := "move", args := ["$t2", "$t1"],
                       comment := some "Optimized from: None" }] := by
  refine ⟨?_, ?_, optimize_filter_labels, by decide⟩
  · intro l r
    exact ⟨rfl, rfl, rfl⟩
  · intro x l r
    cases x <;> exact ⟨rfl, rfl⟩

theorem c6_labels_block_and_survive_witness :
    ([El.label { name := "L" },
      El.instr { opcode := "move", args := ["$t0", "$s0"],
                 comment := some "Optimized from: None" }] : List El).filter elIsLabel =
    ([El.label { name := "L" },
      El.instr { opcode := "add", args := ["$t0", "$s0", "$zero"] }]
        : List El).filter elIsLabel :=
  c6_labels_block_and_survive.2.2.1
    [El.label { name := "L" },
     El.instr { opcode := "add", args := ["$t0", "$s0", "$zero"] }]
    [El.label { name := "L" },
     El.instr { opcode := "move", args := ["$t0", "$s0"],
                comment := some "Optimized from: None" }]
    (by decide)

/-- C7: when no pattern matches at the cursor the element is copied unchanged
(same opcode, args, comment, original text) and the loop continues on the rest;
consequently an input on which no pattern matches anywhere is returned
verbatim. -/
theorem c7_unmatched_preserved :
    (∀ (x : El) (rest : List El), tryPatterns patterns (x :: rest) = some none →
      optimize (x :: rest) = (optimize rest).map (x :: ·)) ∧
    (∀ s : List El,
      (∀ j, j < s.length →
        matchAddZero (s.drop j) = some 0 ∧
        matchRedundantMove (s.drop j) = some 0 ∧
        matchRedundantLoadStore (s.drop j) = some 0) →
      optimize s = some s) := by
  constructor
  · exact optimize_cons_keep
  · intro s
    induction s with
    | nil => intro _; rfl
    | cons x rest ih =>
      intro hall
      have h0 := hall 0 (by simp)
      rw [List.drop_zero] at h0
      rw [optimize_cons_keep x rest (tryPatterns_keep_intro _ h0.1 h0.2.1 h0.2.2)]
      rw [ih ?_]
      · rfl
      · intro j hj
        have hj1 := hall (j + 1) (by simpa using hj)
        simpa using hj1

theorem c7_unmatched_preserved_witness :
    optimize [El.instr { opcode := "sub", args := ["$t0", "$t1", "$t2"] },
              El.label { name := "L" }] =
      some [El.instr { opcode := "sub", args := ["$t0", "$t1", "$t2"] },
            El.label { name := "L" }] :=
  c7_unmatched_preserved.2
    [El.instr { opcode := "sub", args := ["$t0", "$t1", "$t2"] },
     El.label { name := "L" }]
    (by decide)

/-- C10: every Instruction built by a transformer is a fresh `move` with
empty `original_text` and a comment `Optimized from: ...` naming the
`original_text` of the matched instructions (Python renders a missing one as
the text None); in the
sw/lw pattern only the first output element — the input store, passed through
verbatim — keeps its `original_text`. -/
theorem c10_transformer_provenance :
    (∀ (l out : List El), transformAddZero l = some out →
      ∃ i r a0 a1, l = El.instr i :: r ∧ i.args[0]? = some a0 ∧ i.args[1]? = some a1 ∧
        out = [El.instr { opcode := "move", args := [a0, a1],
                          comment := some ("Optimized from: " ++ pyStr i.originalText),
                          originalText := none }]) ∧
    (∀ (l out : List El), transformRedundantMove l = some out →
      ∃ f sec r d s, l = El.instr f :: El.instr sec :: r ∧
        sec.args[0]? = some d ∧ f.args[1]? = some s ∧
        out = [El.instr { opcode := "move", args := [d, s],
                          comment := some ("Optimized from: " ++ pyStr f.originalText
                                            ++ " and " ++ pyStr sec.originalText),
                          originalText := none }]) ∧
    (∀ (l out : List El), transformRedundantLoadStore l = some out →
      ∃ st ld r d s, l = El.instr st :: El.instr ld :: r ∧
        ld.args[0]? = some d ∧ st.args[0]? = some s ∧
        out = [El.instr st,
               El.instr { opcode := "move", args := [d, s],
                          comment := some ("Optimized from: " ++ pyStr ld.originalText),
                          originalText := none }]) := by
  refine ⟨?_, ?_, ?_⟩
  · intro l out h
    match l with
    | [] => exact absurd h (by simp [transformAddZero])
    | El.label lab :: r => exact absurd h (by simp [transformAddZero])
    | El.instr i :: r =>
      simp only [transformAddZero] at h
      cases h0 : i.args[0]? with
      | none =>
        rw [h0] at h
        replace h : (none : Option (List El)) = some out := h
        simp at h
      | some a0 =>
        rw [h0] at h
        cases h1 : i.args[1]? with
        | none =>
          rw [h1] at h
          replace h : (none : Option (List El)) = some out := h
          simp at h
        | some a1 =>
          rw [h1] at h
          replace h : some [El.instr { opcode := "move", args := [a0, a1],
                                       comment := some ("Optimized from: "
                                                         ++ pyStr i.originalText),
                                       originalText := none }] = some out := h
          exact ⟨i, r, a0, a1, rfl, h0, h1, (Option.some.inj h).symm⟩
  · intro l out h
    match l with
    | [] => exact absurd h (by simp [transformRedundantMove])
    | El.label lab :: r => exact absurd h (by simp [transformRedundantMove])
    | [El.instr f] => exact absurd h (by simp [transformRedundantMove])
    | El.instr f :: El.label lab :: r =>
      exact absurd h (by simp [transformRedundantMove])
    | El.instr f :: El.instr sec :: r =>
      simp only [transformRedundantMove] at h
      cases h0 : sec.args[0]? with
      | none =>
        rw [h0] at h
        replace h : (none : Option (List El)) = some out := h
        simp at h
      | some d =>
        rw [h0] at h
        cases h1 : f.args[1]? with
        | none =>
          rw [h1] at h
          replace h : (none : Option (List El)) = some out := h
          simp at h
        | some s =>
          rw [h1] at h
          replace h : some [El.instr { opcode := "move", args := [d, s],
                                       comment := some ("Optimized from: "
                                                         ++ pyStr f.originalText
                                                         ++ " and "
                                                         ++ pyStr sec.originalText),
                                       originalText := none }] = some out := h
          exact ⟨f, sec, r, d, s, rfl, h0, h1, (Option.some.inj h).symm⟩
  · intro l out h
    match l with
    | [] => exact absurd h (by simp [transformRedundantLoadStore])
    | El.label lab :: r => exact absurd h (by simp [transformRedundantLoadStore])
    | [El.instr st] => exact absurd h (by simp [transformRedundantLoadStore])
    | El.instr st :: El.label lab :: r =>
      exact absurd h (by simp [transformRedundantLoadStore])
    | El.instr st :: El.instr ld :: r =>
      simp only [transformRedundantLoadStore] at h
      cases h0 : ld.args[0]? with
      | none =>
        rw [h0] at h
        replace h : (none : Option (List El)) = some out := h
        simp at h
      | some d =>
        rw [h0] at h
        cases h1 : st.args[0]? with
        | none =>
          rw [h1] at h
          replace h : (none : Option (List El)) = some out := h
          simp at h
        | some s =>
          rw [h1] at h
          replace h : some [El.instr st,
                            El.instr { opcode := "move", args := [d, s],
                                       comment := some ("Optimized from: "
                                                         ++ pyStr ld.originalText),
                                       originalText := none }] = some out := h
          exact ⟨st, ld, r, d, s, rfl, h0, h1, (Option.some.inj h).symm⟩

theorem c10_transformer_provenance_witness :
    ∃ st ld r d s,
      ([El.instr { opcode := "sw", args := ["$t1", "0($sp)"],
                   originalText := some "sw $t1, 0($sp)" },
        El.instr { opcode := "lw", args := ["$t2", "0($sp)"],
                   originalText := some "lw $t2, 0($sp)" }] : List El)
        = El.instr st :: El.instr ld :: r ∧
      ld.args[0]? = some d ∧ st.args[0]? = some s ∧
      [El.instr { opcode := "sw", args := ["$t1", "0($sp)"],
                  originalText := some "sw $t1, 0($sp)" },
       El.instr { opcode := "move", args := ["$t2", "$t1"],
                  comment := some "Optimized from: lw $t2, 0($sp)",
                  originalText := none }]
        = [El.instr st,
           El.instr { opcode := "move", args := [d, s],
                      comment := some ("Optimized from: " ++ pyStr ld.originalText),
                      originalText := none }] :=
  c10_transformer_provenance.2.2
    [El.instr { opcode := "sw", args := ["$t1", "0($sp)"],
                originalText := some "sw $t1, 0($sp)" },
     El.instr { opcode := "lw", args := ["$t2", "0($sp)"],
                originalText := some "lw $t2, 0($sp)" }]
    [El.instr { opcode := "sw", args := ["$t1", "0($sp)"],
                originalText := some "sw $t1, 0($sp)" },
     El.instr { opcode := "move", args := ["$t2", "$t1"],
                comment := some "Optimized from: lw $t2, 0($sp)",
                originalText := none }]
    (by decide)

/-! ### Parser helper lemmas and line-classification claims -/

theorem parseLinesC_cons (l : List Char) (ls : List (List Char)) :
    parseLinesC (l :: ls) = parseLineC l ++ parseLinesC ls := by
  simp [parseLinesC]

theorem parseLineC_blank (l : List Char) (h : trimC l = []) : parseLineC l = [] := by
  simp [parseLineC, h]

theorem parseLineC_comment (l : List Char)
    (h : ((trimC l).dropWhile isSpaceChar).head? = some '#') : parseLineC l = [] := by
  have hne : trimC l ≠ [] := by
    intro h0
    rw [h0] at h
    simp at h
  simp only [parseLineC]
  rw [if_neg hne, if_pos h]

theorem labelSplit_not_comment (line : List Char) (p : List Char × List Char)
    (h : labelSplit line = some p) : (line.dropWhile isSpaceChar).head? ≠ some '#' := by
  intro hc
  cases ht : line.dropWhile isSpaceChar with
  | nil => rw [ht] at hc; simp at hc
  | cons c tl =>
    rw [ht] at hc
    have hc2 : c = '#' := by simpa using hc
    subst hc2
    simp only [labelSplit] at h
    rw [ht] at h
    replace h : (if isIdentStart '#' then
        match ('#' :: tl).dropWhile isIdentChar with
        | ':' :: r => some (('#' :: tl).takeWhile isIdentChar, r.dropWhile isSpaceChar)
        | _ => none
      else none) = some p := h
    rw [if_neg (by decide)] at h
    exact absurd h (by simp)

theorem parseLineC_label (l : List Char) (name rest : List Char)
    (h : labelSplit (trimC l) = some (name, rest)) :
    parseLineC l =
      (if trimC rest ≠ [] then
        match parseInstructionC rest with
        | some i => [El.label { name := String.mk name, instruction := some i },
                     El.instr i]
        | none => [El.label { name := String.mk name, instruction := none }]
      else [El.label { name := String.mk name, instruction := none }]) := by
  have hne : trimC l ≠ [] := by
    intro h0
    rw [h0] at h
    exact absurd h (by simp [labelSplit])
  have hcm : ((trimC l).dropWhile isSpaceChar).head? ≠ some '#' :=
    labelSplit_not_comment _ _ h
  simp only [parseLineC]
  rw [if_neg hne, if_neg hcm, h]

/-- C8: the parser classifies each trimmed line in priority order — blank
lines and `#`-comment lines emit nothing; a `identifier:` line emits a Label,
and when the text after the colon parses as an instruction it is both attached
to the Label and appended right after it; text of only blank/comment lines
parses to the empty IR sequence. -/
theorem c8_line_classification :
    (∀ (l : List Char) (ls : List (List Char)), trimC l = [] →
      parseLinesC (l :: ls) = parseLinesC ls) ∧
    (∀ (l : List Char) (ls : List (List Char)),
      ((trimC l).dropWhile isSpaceChar).head? = some '#' →
      parseLinesC (l :: ls) = parseLinesC ls) ∧
    (∀ (l : List Char) (ls : List (List Char)) (name rest : List Char),
      labelSplit (trimC l) = some (name, rest) →
      (∀ i, trimC rest ≠ [] → parseInstructionC rest = some i →
        parseLinesC (l :: ls) =
          El.label { name := String.mk name, instruction := some i } ::
            El.instr i :: parseLinesC ls) ∧
      (trimC rest = [] →
        parseLinesC (l :: ls) =
          El.label { name := String.mk name, instruction := none } :: parseLinesC ls)) ∧
    (∀ lines : List (List Char),
      (∀ l ∈ lines, trimC l = [] ∨ ((trimC l).dropWhile isSpaceChar).head? = some '#') →
      parseLinesC lines = []) := by
  refine ⟨?_, ?_, ?_, ?_⟩
  · intro l ls h
    rw [parseLinesC_cons, parseLineC_blank l h, List.nil_append]
  · intro l ls h
    rw [parseLinesC_cons, parseLineC_comment l h, List.nil_append]
  · intro l ls name rest h
    constructor
    · intro i hne hi
      rw [parseLinesC_cons, parseLineC_label l name rest h, if_pos hne, hi]
      rfl
    · intro hemp
      rw [parseLinesC_cons, parseLineC_label l name rest h, if_neg (by simp [hemp])]
      rfl
  · intro lines hall
    induction lines with
    | nil => rfl
    | cons l ls ih =>
      rw [parseLinesC_cons]
      rcases hall l (by simp) with h | h
      · rw [parseLineC_blank l h, List.nil_append]
        exact ih (fun x hx => hall x (by simp [hx]))
      · rw [parseLineC_comment l h, List.nil_append]
        exact ih (fun x hx => hall x (by simp [hx]))

theorem c8_line_classification_witness :
    parseLinesC ["x: add $t0, $t1".data] =
      [El.label { name := "x",
                  instruction := some { opcode := "add", args := ["$t0", "$t1"],
                                        comment := none,
                                        originalText := some "add $t0, $t1" } },
       El.instr { opcode := "add", args := ["$t0", "$t1"],
                  comment := none, originalText := some "add $t0, $t1" }] :=
  (c8_line_classification.2.2.1 "x: add $t0, $t1".data [] "x".data
      "add $t0, $t1".data (by decide)).1
    { opcode := "add", args := ["$t0", "$t1"],
      comment := none, originalText := some "add $t0, $t1" }
    (by decide) (by decide)

/-- C9: an instruction line stores its opcode lower-cased and its operands
split strictly on commas with each operand trimmed and empties dropped (so no
stored operand is the empty string); a line that does not match the
instruction pattern (no leading letter after whitespace) yields `None` and is
silently dropped by `parse_text` — no element, no error. -/
theorem c9_instruction_parsing :
    (∀ line : List Char,
      (line.dropWhile isSpaceChar).takeWhile isAsciiLetter = [] →
      parseInstructionC line = none) ∧
    (∀ (l : List Char) (ls : List (List Char)),
      trimC l ≠ [] →
      ((trimC l).dropWhile isSpaceChar).head? ≠ some '#' →
      labelSplit (trimC l) = none →
      parseInstructionC (trimC l) = none →
      parseLinesC (l :: ls) = parseLinesC ls) ∧
    (∀ (line : List Char) (i : Instruction), parseInstructionC line = some i →
      i.opcode = String.mk (((line.dropWhile isSpaceChar).takeWhile
        isAsciiLetter).map toLowerChar) ∧
      i.args = splitArgsC (((line.dropWhile isSpaceChar).dropWhile
        isAsciiLetter).takeWhile (· ≠ '#')) ∧
      ∀ a ∈ i.args, a ≠ "") ∧
    parseInstructionC "ADD $t0, , $s1 ,$t2  ".data =
      some { opcode := "add", args := ["$t0", "$s1", "$t2"],
             comment := none, originalText := some "ADD $t0, , $s1 ,$t2  " } := by
  refine ⟨?_, ?_, ?_, by decide⟩
  · intro line h
    simp only [parseInstructionC]
    rw [h]
  · intro l ls h1 h2 h3 h4
    rw [parseLinesC_cons]
    simp only [parseLineC]
    rw [if_neg h1, if_neg h2, h3]
    show (match parseInstructionC (trimC l) with
      | some i => [El.instr i]
      | none => []) ++ parseLinesC ls = parseLinesC ls
    rw [h4, List.nil_append]
  · intro line i h
    simp only [parseInstructionC] at h
    cases hop : (line.dropWhile isSpaceChar).takeWhile isAsciiLetter with
    | nil =>
      rw [hop] at h
      replace h : (none : Option Instruction) = some i := h
      exact absurd h (by simp)
    | cons c cs =>
      rw [hop] at h
      have hI := Option.some.inj h
      subst hI
      refine ⟨rfl, rfl, ?_⟩
      intro a ha
      simp only [splitArgsC, List.mem_map, List.mem_filter] at ha
      obtain ⟨lc, ⟨_, hne⟩, rfl⟩ := ha
      intro hc
      have hdata := congrArg String.data hc
      simp at hdata
      simp [hdata] at hne

theorem c9_instruction_parsing_witness :
    parseInstructionC "123 foo".data = none :=
  c9_instruction_parsing.1 "123 foo".data (by decide)

end MIPSOpt
